import Mathlib

/-!
Verification of the file-registry server (`src/server/server.js`) of the
Doc-Repo-Service repository.  The server keeps an in-memory JavaScript
object `fileMap` mapping a generated identifier (`uid`) to a metadata
record, mirrors it to a JSON snapshot file (`fileMap.json`) on every
mutation, and stores uploaded blobs in an `uploads` directory under a
name `uuid + extname(originalname)` chosen by the multer `diskStorage`
filename callback.  Four HTTP handlers (upload, list, download, delete)
drive this state.

The embedding below models:
  * the registry as an association list keyed by strings, with the
    JavaScript object semantics (assignment to an existing key updates in
    place, a new key is appended; `Object.values` returns values in
    insertion order; `delete` removes the key);
  * the uploads directory as an association list from stored filename to
    the file's bytes;
  * the snapshot file as absent, malformed, or a valid serialized map
    (JSON serialization itself is treated as faithful);
  * `fs.writeFileSync` failure inside `saveFileMap` by a boolean
    `persistOk` parameter: on `false` the snapshot file keeps its old
    content and — exactly as in the source, where the exception is caught
    and logged inside `saveFileMap` — no error escapes to the handler;
    the startup recovery write of the empty snapshot is instead unguarded
    in the source, so its failure crashes startup, modelled by a crash
    outcome of the load;
  * Node's `path.extname` / `path.parse(..).name` and ECMAScript's
    `encodeURIComponent` as executable functions on strings.
-/

/-- Metadata record stored in `fileMap` (field names per the source's
`fileInfo` object literal in the upload handler). -/
structure FileInfo where
  uid : String
  originalFilename : String
  storedFilename : String
  size : Nat
  mimeType : String
  uploadTime : String
deriving DecidableEq

/-- The in-memory registry: a string-keyed association list modelling the
JavaScript object `fileMap`. -/
abbrev FileMap := List (String × FileInfo)

/-- The uploads directory: stored filename to blob bytes. -/
abbrev Disk := List (String × List Nat)

/-- Lookup of a key in a string-keyed association list (JavaScript
property read `m[k]`, `undefined` becoming `none`). -/
def alGet? {α : Type} : List (String × α) → String → Option α
  | [], _ => none
  | (k', v) :: rest, k => if k' = k then some v else alGet? rest k

/-- Property assignment `m[k] = v`: an existing key is updated in place,
a new key is appended at the end (JavaScript object insertion order). -/
def alSet {α : Type} : List (String × α) → String → α → List (String × α)
  | [], k, v => [(k, v)]
  | (k', v') :: rest, k, v =>
    if k' = k then (k', v) :: rest else (k', v') :: alSet rest k v

/-- Property deletion `delete m[k]`. -/
def alErase {α : Type} (m : List (String × α)) (k : String) : List (String × α) :=
  m.filter (fun p => p.1 ≠ k)

/-- Key presence test (`fs.existsSync` on the disk, `m[k]` truthiness on
the registry). -/
def alHasKey {α : Type} (m : List (String × α)) (k : String) : Bool :=
  (alGet? m k).isSome

/-- Values of the object in insertion order (`Object.values(fileMap)`). -/
def objectValues {α : Type} (m : List (String × α)) : List α :=
  m.map Prod.snd

/-- Index of the last '.' in a list of characters, if any. -/
def lastDotPos : List Char → Option Nat
  | [] => none
  | c :: rest =>
    match lastDotPos rest with
    | some n => some (n + 1)
    | none => if c = '.' then some 0 else none

/-- Node `path.extname` on a plain basename: the substring from the last
dot, except that a name with no dot, or whose only dot is the leading
character (dotfile), has an empty extension. -/
def extnameL (cs : List Char) : List Char :=
  match lastDotPos cs with
  | none => []
  | some 0 => []
  | some n => cs.drop n

/-- Node `path.parse(p).name` on a plain basename: the name with its
`extname` removed. -/
def parseNameL (cs : List Char) : List Char :=
  match lastDotPos cs with
  | none => cs
  | some 0 => cs
  | some n => cs.take n

/-- String-level `path.extname`. -/
def extnameS (s : String) : String := ⟨extnameL s.data⟩

/-- String-level `path.parse(p).name`. -/
def parseNameS (s : String) : String := ⟨parseNameL s.data⟩

/-- Hexadecimal digit (uppercase), for percent-encoding. -/
def hexDigit (n : Nat) : Char :=
  if n < 10 then Char.ofNat (48 + n) else Char.ofNat (55 + n)

/-- Percent-encoding of one byte: `%XY`. -/
def byteHex (b : Nat) : List Char :=
  ['%', hexDigit (b / 16), hexDigit (b % 16)]

/-- UTF-8 bytes of a Unicode code point. -/
def utf8Bytes (n : Nat) : List Nat :=
  if n < 128 then [n]
  else if n < 2048 then [192 + n / 64, 128 + n % 64]
  else if n < 65536 then [224 + n / 4096, 128 + n / 64 % 64, 128 + n % 64]
  else [240 + n / 262144, 128 + n / 4096 % 64, 128 + n / 64 % 64, 128 + n % 64]

/-- Characters left unescaped by ECMAScript `encodeURIComponent`. -/
def isUnescapedChar (c : Char) : Bool :=
  c.isAlphanum || c = '-' || c = '_' || c = '.' || c = '!' || c = '~' ||
  c = '*' || c = '\'' || c = '(' || c = ')'

/-- ECMAScript `encodeURIComponent`: unescaped characters pass through,
every other character is replaced by the percent-encoding of its UTF-8
bytes. -/
def encodeURIComponent (s : String) : String :=
  ⟨s.data.foldr
    (fun c acc =>
      (if isUnescapedChar c then [c] else (utf8Bytes c.toNat).flatMap byteHex) ++ acc)
    []⟩

/-- State of the snapshot file `fileMap.json`: absent, present but
malformed (so that `JSON.parse` throws), or a valid serialized map. -/
inductive SnapshotFile where
  | absent
  | malformed
  | valid (m : FileMap)
deriving DecidableEq

/-- Whole observable server state: the in-memory registry, the uploads
directory, and the snapshot file. -/
structure ServerState where
  fileMap : FileMap
  disk : Disk
  snapshot : SnapshotFile
deriving DecidableEq

/-- Outcome of the startup load of `fileMap.json`: the loaded registry
together with the resulting snapshot file, or a crash of the process (an
exception escaping the module's top level). -/
inductive LoadResult where
  | ok (m : FileMap) (snap : SnapshotFile)
  | crash
deriving DecidableEq

/-- The startup load of `fileMap` from `fileMap.json`: an absent file
leaves the initial empty map and touches nothing; a malformed file's
parse error is caught, the map is reset to empty, and the empty map is
written back to fix the corrupted file — but that recovery write is
unguarded inside the catch block, so its failure (modelled by
`recoveryWriteOk = false`) escapes and crashes startup; a valid file is
parsed whole. -/
def loadFileMap (snap : SnapshotFile) (recoveryWriteOk : Bool) : LoadResult :=
  match snap with
  | .absent => .ok [] .absent
  | .malformed => if recoveryWriteOk then .ok [] (.valid []) else .crash
  | .valid m => .ok m (.valid m)

/-- The source's `saveFileMap`: attempts to overwrite the snapshot with
the full serialized map; on a write error (modelled by
`persistOk = false`) the exception is caught and logged and the snapshot
keeps its previous content.  No error propagates to the caller. -/
def saveFileMap (m : FileMap) (persistOk : Bool) (old : SnapshotFile) : SnapshotFile :=
  if persistOk then .valid m else old

/-- One file as the client sends it in the multipart request. -/
structure IncomingFile where
  originalname : String
  content : List Nat
  mimetype : String
deriving DecidableEq

/-- One file as multer hands it to the handler in `req.files`. -/
structure MulterFile where
  originalname : String
  filename : String
  size : Nat
  mimetype : String
deriving DecidableEq

/-- One file of an upload request together with the environment's
nondeterministic inputs consumed for it: the `uuidv4()` value generated
by the `diskStorage` filename callback and the `new Date().toISOString()`
timestamp read in the handler loop. -/
structure UploadItem where
  file : IncomingFile
  uuid : String
  time : String
deriving DecidableEq

/-- Stored filename chosen by the multer `diskStorage` filename callback:
the generated uuid followed by the original name's extension. -/
def storedNameOf (it : UploadItem) : String :=
  it.uuid ++ extnameS it.file.originalname

/-- The `req.files` entry multer produces for one upload item. -/
def mkMulterFile (it : UploadItem) : MulterFile :=
  { originalname := it.file.originalname
    filename := storedNameOf it
    size := it.file.content.length
    mimetype := it.file.mimetype }

/-- Multer's `diskStorage` phase: write each incoming file's bytes to the
uploads directory under its stored name and build `req.files`, pairing
each entry with the timestamp the handler will read for it. -/
def multerStoreAll (d : Disk) : List UploadItem → Disk × List (MulterFile × String)
  | [] => (d, [])
  | it :: rest =>
    let d1 := alSet d (storedNameOf it) it.file.content
    let (d2, mfs) := multerStoreAll d1 rest
    (d2, (mkMulterFile it, it.time) :: mfs)

/-- Body of the upload handler's `forEach`: derive the uid from the
stored filename and build the `fileInfo` record. -/
def processFile (f : MulterFile) (time : String) : String × FileInfo :=
  let uid := parseNameS f.filename
  (uid,
   { uid := uid
     originalFilename := f.originalname
     storedFilename := f.filename
     size := f.size
     mimeType := f.mimetype
     uploadTime := time })

/-- The upload handler's loop over `req.files`: each file is inserted
into the registry under its uid and pushed onto the `fileData` response
array, in order. -/
def uploadLoop : FileMap → List (MulterFile × String) → FileMap × List FileInfo
  | fm, [] => (fm, [])
  | fm, (f, t) :: rest =>
    let (uid, info) := processFile f t
    let (fm', infos) := uploadLoop (alSet fm uid info) rest
    (fm', info :: infos)

/-- HTTP responses the four handlers can produce. -/
structure DownloadHeaders where
  contentType : String
  contentDisposition : String
  contentLength : Nat
deriving DecidableEq

/-- Observable HTTP response of a handler. -/
inductive HttpResponse where
  | uploadOk (message : String) (files : List FileInfo)
  | listOk (files : List FileInfo)
  | fileStream (headers : DownloadHeaders) (bytes : List Nat)
  | deleteOk (message : String)
  | badRequest (error : String)
  | notFound (error : String)
  | serverError (error : String)
deriving DecidableEq

/-- HTTP status code of a response. -/
def statusOf : HttpResponse → Nat
  | .uploadOk _ _ => 200
  | .listOk _ => 200
  | .fileStream _ _ => 200
  | .deleteOk _ => 200
  | .badRequest _ => 400
  | .notFound _ => 404
  | .serverError _ => 500

/-- The error string of a response whose JSON body has the shape of an
object with a single `error` field, `none` for success bodies. -/
def errorBody? : HttpResponse → Option String
  | .badRequest e => some e
  | .notFound e => some e
  | .serverError e => some e
  | _ => none

/-- The `POST /upload` handler, including the multer phase that precedes
it: multer stores every attached file, then the handler rejects an empty
`req.files` with 400, otherwise inserts a record per file, saves the
snapshot (failure caught inside `saveFileMap`), and responds 200 with the
created records. -/
def postUpload (st : ServerState) (items : List UploadItem) (persistOk : Bool) :
    HttpResponse × ServerState :=
  if (multerStoreAll st.disk items).2.isEmpty then
    (.badRequest "No files uploaded", { st with disk := (multerStoreAll st.disk items).1 })
  else
    (.uploadOk "Files uploaded successfully"
      (uploadLoop st.fileMap (multerStoreAll st.disk items).2).2,
     { fileMap := (uploadLoop st.fileMap (multerStoreAll st.disk items).2).1
       disk := (multerStoreAll st.disk items).1
       snapshot :=
         saveFileMap (uploadLoop st.fileMap (multerStoreAll st.disk items).2).1
           persistOk st.snapshot })

/-- The `GET /files` handler: respond 200 with `Object.values(fileMap)`. -/
def getFiles (st : ServerState) : HttpResponse × ServerState :=
  (.listOk (objectValues st.fileMap), st)

/-- The `GET /download/:uid` handler: 404 when the uid is unknown; when
the record exists but its blob is missing on disk, remove the record,
save the snapshot and respond 404 (self-healing); otherwise respond with
the stored mime type, an attachment disposition carrying the URL-encoded
original filename, the recorded size as Content-Length, and the blob's
bytes as the body. -/
def getDownload (st : ServerState) (uid : String) (persistOk : Bool) :
    HttpResponse × ServerState :=
  match alGet? st.fileMap uid with
  | none => (.notFound "File not found", st)
  | some info =>
    match alGet? st.disk info.storedFilename with
    | none =>
      let fm' := alErase st.fileMap uid
      (.notFound "File not found on server",
       { st with fileMap := fm', snapshot := saveFileMap fm' persistOk st.snapshot })
    | some bytes =>
      (.fileStream
        { contentType := info.mimeType
          contentDisposition :=
            "attachment; filename=\"" ++ encodeURIComponent info.originalFilename ++ "\""
          contentLength := info.size }
        bytes,
       st)

/-- The `DELETE /files/:uid` handler: 404 when the uid is unknown;
otherwise unlink the blob if it exists on disk (a missing blob is
silently skipped), remove the record, save the snapshot, respond 200. -/
def deleteFile (st : ServerState) (uid : String) (persistOk : Bool) :
    HttpResponse × ServerState :=
  match alGet? st.fileMap uid with
  | none => (.notFound "File not found", st)
  | some info =>
    let disk' :=
      if alHasKey st.disk info.storedFilename then
        alErase st.disk info.storedFilename
      else st.disk
    let fm' := alErase st.fileMap uid
    (.deleteOk "File deleted successfully",
     { fileMap := fm'
       disk := disk'
       snapshot := saveFileMap fm' persistOk st.snapshot })

/-- Healthy uuid as produced by `uuidv4()`: nonempty and containing no
dot (a v4 uuid is 36 hex/hyphen characters). -/
def uuidOk (it : UploadItem) : Prop := it.uuid ≠ "" ∧ '.' ∉ it.uuid.data

instance (it : UploadItem) : Decidable (uuidOk it) := by
  unfold uuidOk
  infer_instance

/-- The registry record the upload handler builds for one item, given the
multer-chosen stored filename. -/
def mkInfo (it : UploadItem) : FileInfo :=
  { uid := it.uuid
    originalFilename := it.file.originalname
    storedFilename := storedNameOf it
    size := it.file.content.length
    mimeType := it.file.mimetype
    uploadTime := it.time }

/-- Sequential registry effect of the upload loop. -/
def insertAll (fm : FileMap) : List UploadItem → FileMap
  | [] => fm
  | it :: rest => insertAll (alSet fm it.uuid (mkInfo it)) rest

/-- Key/record coherence invariant of the registry: every binding's
record carries its own key as `uid`, and its stored filename is that uid
followed by the extension of its original filename. -/
def RegistryInv (m : FileMap) : Prop :=
  ∀ p ∈ m, p.2.uid = p.1 ∧ p.2.storedFilename = p.1 ++ extnameS p.2.originalFilename

instance (m : FileMap) : Decidable (RegistryInv m) := by
  unfold RegistryInv
  infer_instance

/-- Concrete upload item used to instantiate the theorems. -/
def itemA : UploadItem :=
  { file := { originalname := "report.pdf", content := [1, 2, 3], mimetype := "application/pdf" }
    uuid := "aaa-1"
    time := "t1" }

/-- Second concrete upload item. -/
def itemB : UploadItem :=
  { file := { originalname := "notes.txt", content := [7, 8], mimetype := "text/plain" }
    uuid := "bbb-2"
    time := "t2" }

/-- Fresh server state: empty registry, empty uploads directory, no
snapshot file yet. -/
def st0 : ServerState := { fileMap := [], disk := [], snapshot := .absent }

/-- Server state holding `itemA`'s record with its blob present. -/
def stA : ServerState :=
  { fileMap := [("aaa-1", mkInfo itemA)]
    disk := [("aaa-1.pdf", [1, 2, 3])]
    snapshot := .valid [("aaa-1", mkInfo itemA)] }

/-- Server state holding `itemA`'s record whose blob is missing from the
uploads directory (externally removed). -/
def stGone : ServerState :=
  { fileMap := [("aaa-1", mkInfo itemA)]
    disk := []
    snapshot := .valid [("aaa-1", mkInfo itemA)] }

/-! Association-list lemmas. -/

theorem alGet?_alSet_self {α : Type} (m : List (String × α)) (k : String) (v : α) :
    alGet? (alSet m k v) k = some v := by
  induction m with
  | nil => simp [alSet, alGet?]
  | cons p rest ih =>
    by_cases h : p.1 = k
    · simp [alSet, alGet?, h]
    · simpa [alSet, alGet?, h] using ih

theorem alGet?_alSet_ne {α : Type} (m : List (String × α)) (k k' : String) (v : α)
    (h : k' ≠ k) : alGet? (alSet m k v) k' = alGet? m k' := by
  induction m with
  | nil => simp [alSet, alGet?, Ne.symm h]
  | cons p rest ih =>
    by_cases hp : p.1 = k
    · simp [alSet, alGet?, hp, Ne.symm h]
    · simp [alSet, alGet?, hp, ih]

theorem alSet_length_of_fresh {α : Type} (m : List (String × α)) (k : String) (v : α)
    (h : alGet? m k = none) : (alSet m k v).length = m.length + 1 := by
  induction m with
  | nil => simp [alSet]
  | cons p rest ih =>
    by_cases hp : p.1 = k
    · simp [alGet?, hp] at h
    · simp [alGet?, hp] at h
      simp [alSet, hp, ih h]

theorem mem_alSet {α : Type} {m : List (String × α)} {k : String} {v : α}
    {p : String × α} (h : p ∈ alSet m k v) : p ∈ m ∨ p = (k, v) := by
  induction m with
  | nil =>
    right
    simpa [alSet] using h
  | cons q rest ih =>
    by_cases hq : q.1 = k
    · rw [show alSet (q :: rest) k v = (q.1, v) :: rest by simp [alSet, hq]] at h
      rcases List.mem_cons.mp h with h1 | h1
      · right
        rw [h1, hq]
      · left
        exact List.mem_cons_of_mem _ h1
    · rw [show alSet (q :: rest) k v = q :: alSet rest k v by simp [alSet, hq]] at h
      rcases List.mem_cons.mp h with h1 | h1
      · left
        simp [h1]
      · rcases ih h1 with h2 | h2
        · left
          exact List.mem_cons_of_mem _ h2
        · right
          exact h2

theorem alGet?_alErase_self {α : Type} (m : List (String × α)) (k : String) :
    alGet? (alErase m k) k = none := by
  induction m with
  | nil => simp [alErase, alGet?]
  | cons p rest ih =>
    by_cases hp : p.1 = k
    · simpa [alErase, hp] using ih
    · simpa [alErase, alGet?, hp] using ih

theorem mem_alErase {α : Type} {m : List (String × α)} {k : String}
    {p : String × α} (h : p ∈ alErase m k) : p ∈ m :=
  List.mem_of_mem_filter h

theorem key_ne_of_mem_alErase {α : Type} {m : List (String × α)} {k : String}
    {p : String × α} (h : p ∈ alErase m k) : p.1 ≠ k := by
  have := List.of_mem_filter h
  simpa using this

theorem alHasKey_alErase_self {α : Type} (m : List (String × α)) (k : String) :
    alHasKey (alErase m k) k = false := by
  simp [alHasKey, alGet?_alErase_self]

theorem RegistryInv_alErase {m : FileMap} {k : String} (h : RegistryInv m) :
    RegistryInv (alErase m k) :=
  fun p hp => h p (mem_alErase hp)

/-! Lemmas about `extname` and `parse(..).name`. -/

theorem lastDotPos_eq_none {cs : List Char} (h : '.' ∉ cs) : lastDotPos cs = none := by
  induction cs with
  | nil => rfl
  | cons c rest ih =>
    have hc : c ≠ '.' := fun hc => h (by simp [hc])
    have hrest : '.' ∉ rest := fun hr => h (List.mem_cons_of_mem _ hr)
    simp [lastDotPos, ih hrest, hc]

theorem not_dot_mem_of_lastDotPos_none {cs : List Char} (h : lastDotPos cs = none) :
    '.' ∉ cs := by
  induction cs with
  | nil => simp
  | cons c rest ih =>
    intro hmem
    match hr : lastDotPos rest with
    | some n => simp [lastDotPos, hr] at h
    | none =>
      rcases List.mem_cons.mp hmem with h1 | h1
      · simp [lastDotPos, hr, h1.symm] at h
      · exact ih hr h1

theorem lastDotPos_append_of_some {xs ys : List Char} {j : Nat}
    (h : lastDotPos ys = some j) :
    lastDotPos (xs ++ ys) = some (xs.length + j) := by
  induction xs with
  | nil => simpa using h
  | cons x xs ih =>
    have h1 : lastDotPos (x :: (xs ++ ys)) = some (xs.length + j + 1) := by
      simp [lastDotPos, ih]
    rw [List.cons_append, h1]
    congr 1
    simp
    omega

theorem lastDotPos_append_of_none {xs ys : List Char}
    (h : lastDotPos ys = none) :
    lastDotPos (xs ++ ys) = lastDotPos xs := by
  induction xs with
  | nil => simpa using h
  | cons x xs ih => simp [lastDotPos, ih]

theorem lastDotPos_dot_cons {r : List Char} (h : '.' ∉ r) :
    lastDotPos ('.' :: r) = some 0 := by
  simp [lastDotPos, lastDotPos_eq_none h]

theorem drop_of_lastDotPos : ∀ {cs : List Char} {n : Nat},
    lastDotPos cs = some n → ∃ r, cs.drop n = '.' :: r ∧ '.' ∉ r := by
  intro cs
  induction cs with
  | nil => intro n h; simp [lastDotPos] at h
  | cons c rest ih =>
    intro n h
    match hr : lastDotPos rest with
    | some m =>
      have hn : n = m + 1 := by simp [lastDotPos, hr] at h; omega
      subst hn
      simpa using ih hr
    | none =>
      have hc : c = '.' ∧ n = 0 := by
        by_cases hc : c = '.'
        · simp [lastDotPos, hr, hc] at h
          exact ⟨hc, h.symm⟩
        · simp [lastDotPos, hr, hc] at h
      rcases hc with ⟨hc, hn⟩
      subst hc; subst hn
      exact ⟨rest, by simp, not_dot_mem_of_lastDotPos_none hr⟩

/-- Shape of an extension: empty, or a dot followed by a dot-free tail. -/
theorem extnameL_shape (cs : List Char) :
    extnameL cs = [] ∨ ∃ r, extnameL cs = '.' :: r ∧ '.' ∉ r := by
  unfold extnameL
  match h : lastDotPos cs with
  | none => left; rfl
  | some 0 => left; rfl
  | some (n + 1) =>
    right
    simpa using drop_of_lastDotPos h

/-- Key structural fact: a dot-free nonempty uuid concatenated with any
`extname` result is split back apart by `path.parse(..).name`. -/
theorem parseNameL_append_extnameL (u orig : List Char)
    (hdot : '.' ∉ u) (hne : u ≠ []) :
    parseNameL (u ++ extnameL orig) = u := by
  rcases extnameL_shape orig with h | ⟨r, h, hr⟩
  · rw [h]
    unfold parseNameL
    rw [lastDotPos_eq_none (by simpa using hdot)]
    simp
  · rw [h]
    have h0 : lastDotPos ('.' :: r) = some 0 := lastDotPos_dot_cons hr
    have h1 : lastDotPos (u ++ '.' :: r) = some u.length :=
      lastDotPos_append_of_some h0
    unfold parseNameL
    rw [h1]
    obtain ⟨m, hm⟩ : ∃ m, u.length = m + 1 := by
      cases u with
      | nil => exact absurd rfl hne
      | cons a b => exact ⟨b.length, by simp⟩
    rw [hm]
    show List.take (m + 1) (u ++ '.' :: r) = u
    rw [← hm]
    exact List.take_left u ('.' :: r)

theorem parseNameS_storedNameOf (it : UploadItem) (h : uuidOk it) :
    parseNameS (storedNameOf it) = it.uuid := by
  rcases h with ⟨hne, hdot⟩
  have hd : it.uuid.data ≠ [] := by
    intro hnil
    apply hne
    cases hu : it.uuid
    rw [hu] at hnil
    simp at hnil
    simp [hnil]
  unfold parseNameS storedNameOf extnameS
  rw [String.data_append]
  have := parseNameL_append_extnameL it.uuid.data it.file.originalname.data hdot hd
  simp only [this]

theorem processFile_mkMulterFile (it : UploadItem) (h : uuidOk it) :
    processFile (mkMulterFile it) it.time = (it.uuid, mkInfo it) := by
  unfold processFile mkMulterFile mkInfo
  simp only [parseNameS_storedNameOf it h]

theorem multerStoreAll_files (d : Disk) (items : List UploadItem) :
    (multerStoreAll d items).2 = items.map (fun it => (mkMulterFile it, it.time)) := by
  induction items generalizing d with
  | nil => rfl
  | cons it rest ih => simp [multerStoreAll, ih]

theorem uploadLoop_spec (fm : FileMap) (items : List UploadItem)
    (h : ∀ it ∈ items, uuidOk it) :
    uploadLoop fm (items.map (fun it => (mkMulterFile it, it.time))) =
      (insertAll fm items, items.map mkInfo) := by
  induction items generalizing fm with
  | nil => rfl
  | cons it rest ih =>
    have hit : uuidOk it := h it (List.mem_cons_self it rest)
    have hrest : ∀ it' ∈ rest, uuidOk it' := fun it' h' => h it' (List.mem_cons_of_mem _ h')
    simp only [List.map_cons, uploadLoop, processFile_mkMulterFile it hit,
      ih (alSet fm it.uuid (mkInfo it)) hrest, insertAll]

theorem insertAll_length (fm : FileMap) (items : List UploadItem)
    (hfresh : ∀ it ∈ items, alGet? fm it.uuid = none)
    (hnodup : (items.map (fun it => it.uuid)).Nodup) :
    (insertAll fm items).length = fm.length + items.length := by
  induction items generalizing fm with
  | nil => rfl
  | cons it rest ih =>
    simp only [List.map_cons, List.nodup_cons] at hnodup
    have h1 : (alSet fm it.uuid (mkInfo it)).length = fm.length + 1 :=
      alSet_length_of_fresh fm it.uuid (mkInfo it) (hfresh it (List.mem_cons_self it rest))
    have h2 : ∀ it' ∈ rest, alGet? (alSet fm it.uuid (mkInfo it)) it'.uuid = none := by
      intro it' hmem
      have hne : it'.uuid ≠ it.uuid := by
        intro he
        exact hnodup.1 (he ▸ List.mem_map_of_mem (fun it'' => it''.uuid) hmem)
      rw [alGet?_alSet_ne fm it.uuid it'.uuid (mkInfo it) hne]
      exact hfresh it' (List.mem_cons_of_mem _ hmem)
    rw [insertAll, ih _ h2 hnodup.2, h1]
    simp [Nat.add_assoc, Nat.add_comm 1]

theorem mem_insertAll {fm : FileMap} {items : List UploadItem} {p : String × FileInfo}
    (h : p ∈ insertAll fm items) :
    p ∈ fm ∨ ∃ it ∈ items, p = (it.uuid, mkInfo it) := by
  induction items generalizing fm with
  | nil => left; exact h
  | cons it rest ih =>
    rcases ih h with h1 | ⟨it', hmem, he⟩
    · rcases mem_alSet h1 with h2 | h2
      · left; exact h2
      · right; exact ⟨it, List.mem_cons_self it rest, h2⟩
    · right; exact ⟨it', List.mem_cons_of_mem _ hmem, he⟩

theorem storedNames_nodup (items : List UploadItem)
    (hok : ∀ it ∈ items, uuidOk it)
    (hnodup : (items.map (fun it => it.uuid)).Nodup) :
    (items.map storedNameOf).Nodup := by
  induction items with
  | nil => simp
  | cons it rest ih =>
    simp only [List.map_cons, List.nodup_cons] at hnodup ⊢
    refine ⟨?_, ih (fun it' h' => hok it' (List.mem_cons_of_mem _ h')) hnodup.2⟩
    intro hmem
    rcases List.mem_map.mp hmem with ⟨it', hmem', he⟩
    have hu : it'.uuid = it.uuid := by
      have h1 := parseNameS_storedNameOf it' (hok it' (List.mem_cons_of_mem _ hmem'))
      have h2 := parseNameS_storedNameOf it (hok it (List.mem_cons_self it rest))
      rw [← h1, ← h2, he]
    exact hnodup.1 (hu ▸ List.mem_map_of_mem (fun it'' => it''.uuid) hmem')

theorem multerStoreAll_disk_length (d : Disk) (items : List UploadItem)
    (hfresh : ∀ it ∈ items, alGet? d (storedNameOf it) = none)
    (hnodup : (items.map storedNameOf).Nodup) :
    (multerStoreAll d items).1.length = d.length + items.length := by
  induction items generalizing d with
  | nil => rfl
  | cons it rest ih =>
    simp only [List.map_cons, List.nodup_cons] at hnodup
    have h1 : (alSet d (storedNameOf it) it.file.content).length = d.length + 1 :=
      alSet_length_of_fresh d _ _ (hfresh it (List.mem_cons_self it rest))
    have h2 : ∀ it' ∈ rest,
        alGet? (alSet d (storedNameOf it) it.file.content) (storedNameOf it') = none := by
      intro it' hmem
      have hne : storedNameOf it' ≠ storedNameOf it := by
        intro he
        exact hnodup.1 (he ▸ List.mem_map_of_mem storedNameOf hmem)
      rw [alGet?_alSet_ne d _ _ _ hne]
      exact hfresh it' (List.mem_cons_of_mem _ hmem)
    have h3 : (multerStoreAll (alSet d (storedNameOf it) it.file.content) rest).1.length
        = (alSet d (storedNameOf it) it.file.content).length + rest.length :=
      ih _ h2 hnodup.2
    simp only [multerStoreAll]
    rw [h3, h1]
    simp [Nat.add_assoc, Nat.add_comm 1]

/-! Claim theorems. -/

/-- C4: at process start an absent snapshot file yields an empty
registry, and a malformed snapshot whose recovery write succeeds is
discarded in favour of an empty registry (with the corrupted file
rewritten as the empty snapshot) — but when the snapshot is malformed
and the recovery write of the empty snapshot fails, the exception
escapes the catch block and startup crashes, a fatal startup error the
claim rules out. -/
theorem load_malformed_snapshot_can_crash :
    loadFileMap .absent true = .ok [] .absent ∧
    loadFileMap .absent false = .ok [] .absent ∧
    loadFileMap .malformed true = .ok [] (.valid []) ∧
    loadFileMap .malformed false = .crash :=
  ⟨rfl, rfl, rfl, rfl⟩

/-- C6: an upload request with zero files attached fails with
BadRequest (400) and a body of shape `\x7berror: string\x7d`, and leaves
the registry, the snapshot and the uploads directory unchanged. -/
theorem upload_zero_files_rejected (st : ServerState) (persistOk : Bool) :
    postUpload st [] persistOk = (.badRequest "No files uploaded", st) ∧
    statusOf (postUpload st [] persistOk).1 = 400 ∧
    errorBody? (postUpload st [] persistOk).1 = some "No files uploaded" ∧
    (postUpload st [] persistOk).2.fileMap = st.fileMap ∧
    (postUpload st [] persistOk).2.disk = st.disk ∧
    (postUpload st [] persistOk).2.snapshot = st.snapshot :=
  ⟨rfl, rfl, rfl, rfl, rfl, rfl⟩

/-- C8: persistence round trip — reloading the snapshot written by a
successful full-snapshot save yields exactly the saved registry
(whatever the recovery-write flag, whose branch is never reached from a
valid snapshot), so a restart after a completed save reproduces the
pre-restart records. -/
theorem snapshot_round_trip (m : FileMap) (old : SnapshotFile)
    (recoveryWriteOk : Bool) :
    loadFileMap (saveFileMap m true old) recoveryWriteOk = .ok m (.valid m) :=
  rfl

/-- C10: the list endpoint is read-only — it returns 200 with exactly the
values of the registry mapping (each binding contributing exactly one
record, in insertion order) and leaves the whole server state (registry,
uploads directory, snapshot file) unchanged. -/
theorem list_is_read_only (st : ServerState) :
    getFiles st = (.listOk (objectValues st.fileMap), st) ∧
    (getFiles st).2 = st ∧
    objectValues st.fileMap = st.fileMap.map Prod.snd ∧
    statusOf (getFiles st).1 = 200 :=
  ⟨rfl, rfl, rfl, rfl⟩

/-- C1 counterexample: at a concrete one-file upload whose snapshot write
fails, the in-memory entry is added and the snapshot file stays in its
old state, yet the handler's result is the plain 200 success body with no
error field — the failure is not surfaced in the operation's result,
refuting the claim that it is reported to the caller. -/
theorem upload_persist_failure_cex :
    statusOf (postUpload st0 [itemA] false).1 = 200 ∧
    (postUpload st0 [itemA] false).1 =
      .uploadOk "Files uploaded successfully" [mkInfo itemA] ∧
    errorBody? (postUpload st0 [itemA] false).1 = none ∧
    alGet? (postUpload st0 [itemA] false).2.fileMap "aaa-1" = some (mkInfo itemA) ∧
    (postUpload st0 [itemA] false).2.snapshot = SnapshotFile.absent := by
  decide

/-- C1 amended: for every nonempty upload whose snapshot write fails,
the write error is caught and logged inside `saveFileMap` and does not
reach the handler: the in-memory mutation stands, the snapshot file keeps
its previous content, and the operation still reports plain success (200,
no error body) to the caller. -/
theorem upload_persist_failure_silent (st : ServerState) (items : List UploadItem)
    (h : items ≠ []) :
    statusOf (postUpload st items false).1 = 200 ∧
    errorBody? (postUpload st items false).1 = none ∧
    (postUpload st items false).2.snapshot = st.snapshot ∧
    (postUpload st items false).2.fileMap =
      (uploadLoop st.fileMap (multerStoreAll st.disk items).2).1 := by
  have hm := multerStoreAll_files st.disk items
  have hemp : (multerStoreAll st.disk items).2.isEmpty = false := by
    rw [hm]
    cases items with
    | nil => exact absurd rfl h
    | cons it rest => rfl
  simp [postUpload, hemp, saveFileMap, statusOf, errorBody?]

/-- Witness for the amended C1 at a concrete input. -/
theorem upload_persist_failure_silent_witness :
    statusOf (postUpload st0 [itemA] false).1 = 200 ∧
    errorBody? (postUpload st0 [itemA] false).1 = none ∧
    (postUpload st0 [itemA] false).2.snapshot = st0.snapshot ∧
    (postUpload st0 [itemA] false).2.fileMap =
      (uploadLoop st0.fileMap (multerStoreAll st0.disk [itemA]).2).1 :=
  upload_persist_failure_silent st0 [itemA] (by decide)

/-- C2: downloading an id whose record exists but whose blob is absent
from the uploads directory removes the record from the registry, saves
the snapshot (persisted when the write succeeds), and responds 404; the
id is no longer a key of the registry, so a subsequent list no longer
contains it.  Downloading an id with no record responds 404 and changes
nothing. -/
theorem download_self_heals_missing_blob (st : ServerState) (uid : String)
    (persistOk : Bool) :
    (∀ info, alGet? st.fileMap uid = some info →
      alGet? st.disk info.storedFilename = none →
      statusOf (getDownload st uid persistOk).1 = 404 ∧
      (getDownload st uid persistOk).1 = .notFound "File not found on server" ∧
      (getDownload st uid persistOk).2.fileMap = alErase st.fileMap uid ∧
      alGet? (getDownload st uid persistOk).2.fileMap uid = none ∧
      (∀ p ∈ (getDownload st uid persistOk).2.fileMap, p.1 ≠ uid) ∧
      (persistOk = true →
        (getDownload st uid persistOk).2.snapshot = .valid (alErase st.fileMap uid)) ∧
      (getDownload st uid persistOk).2.disk = st.disk) ∧
    (alGet? st.fileMap uid = none →
      getDownload st uid persistOk = (.notFound "File not found", st) ∧
      statusOf (getDownload st uid persistOk).1 = 404) := by
  constructor
  · intro info hrec hblob
    have hkey : getDownload st uid persistOk =
        (.notFound "File not found on server",
         { st with
             fileMap := alErase st.fileMap uid
             snapshot := saveFileMap (alErase st.fileMap uid) persistOk st.snapshot }) := by
      simp only [getDownload, hrec, hblob]
    rw [hkey]
    exact ⟨rfl, rfl, rfl, alGet?_alErase_self _ _,
      fun p hp => key_ne_of_mem_alErase hp, fun hok => by subst hok; rfl, rfl⟩
  · intro hrec
    have hkey : getDownload st uid persistOk = (.notFound "File not found", st) := by
      simp only [getDownload, hrec]
    rw [hkey]
    exact ⟨rfl, rfl⟩

/-- Witness for C2 at concrete inputs: the self-healing path on a state
whose blob was externally removed, and the unknown-id path. -/
theorem download_self_heals_missing_blob_witness :
    statusOf (getDownload stGone "aaa-1" true).1 = 404 ∧
    alGet? (getDownload stGone "aaa-1" true).2.fileMap "aaa-1" = none ∧
    (getDownload stGone "aaa-1" true).2.snapshot = .valid (alErase stGone.fileMap "aaa-1") ∧
    getDownload st0 "zzz" true = (.notFound "File not found", st0) := by
  have h1 := (download_self_heals_missing_blob stGone "aaa-1" true).1
    (mkInfo itemA) (by decide) (by decide)
  have h2 := (download_self_heals_missing_blob st0 "zzz" true).2 (by decide)
  exact ⟨h1.1, h1.2.2.2.1, h1.2.2.2.2.2.1 rfl, h2.1⟩

/-- C3: deleting a known id removes the blob (idempotently — the id's
stored filename is absent from the uploads directory afterwards whether
or not the blob was present) and the record, saves the snapshot, and
responds 200; a second delete of the same id responds 404 and changes
nothing; deleting an unknown id responds 404 and leaves the whole state
unchanged. -/
theorem delete_removes_record_and_blob (st : ServerState) (uid : String)
    (ok1 ok2 : Bool) :
    (∀ info, alGet? st.fileMap uid = some info →
      (deleteFile st uid ok1).1 = .deleteOk "File deleted successfully" ∧
      statusOf (deleteFile st uid ok1).1 = 200 ∧
      (deleteFile st uid ok1).2.fileMap = alErase st.fileMap uid ∧
      alGet? (deleteFile st uid ok1).2.fileMap uid = none ∧
      alHasKey (deleteFile st uid ok1).2.disk info.storedFilename = false ∧
      (ok1 = true →
        (deleteFile st uid ok1).2.snapshot = .valid (alErase st.fileMap uid)) ∧
      deleteFile (deleteFile st uid ok1).2 uid ok2 =
        (.notFound "File not found", (deleteFile st uid ok1).2)) ∧
    (alGet? st.fileMap uid = none →
      deleteFile st uid ok1 = (.notFound "File not found", st) ∧
      statusOf (deleteFile st uid ok1).1 = 404) := by
  constructor
  · intro info hrec
    have hkey : deleteFile st uid ok1 =
        (.deleteOk "File deleted successfully",
         { fileMap := alErase st.fileMap uid
           disk :=
             if alHasKey st.disk info.storedFilename then
               alErase st.disk info.storedFilename
             else st.disk
           snapshot := saveFileMap (alErase st.fileMap uid) ok1 st.snapshot }) := by
      simp only [deleteFile, hrec]
    rw [hkey]
    refine ⟨rfl, rfl, rfl, alGet?_alErase_self _ _, ?_,
      fun hok => by subst hok; rfl, ?_⟩
    · by_cases hdisk : alHasKey st.disk info.storedFilename = true
      · simp [hdisk, alHasKey_alErase_self]
      · simp only [Bool.not_eq_true] at hdisk
        simp [hdisk]
    · have hnone : alGet? (alErase st.fileMap uid) uid = none :=
        alGet?_alErase_self _ _
      simp only [deleteFile, hnone]
  · intro hrec
    have hkey : deleteFile st uid ok1 = (.notFound "File not found", st) := by
      simp only [deleteFile, hrec]
    rw [hkey]
    exact ⟨rfl, rfl⟩

/-- Witness for C3 at concrete inputs: delete of a present record with
its blob on disk, the follow-up second delete, and delete of an unknown
id. -/
theorem delete_removes_record_and_blob_witness :
    (deleteFile stA "aaa-1" true).1 = .deleteOk "File deleted successfully" ∧
    alHasKey (deleteFile stA "aaa-1" true).2.disk (mkInfo itemA).storedFilename = false ∧
    deleteFile (deleteFile stA "aaa-1" true).2 "aaa-1" false =
      (.notFound "File not found", (deleteFile stA "aaa-1" true).2) ∧
    deleteFile st0 "zzz" true = (.notFound "File not found", st0) := by
  have h1 := (delete_removes_record_and_blob stA "aaa-1" true false).1
    (mkInfo itemA) (by decide)
  have h2 := (delete_removes_record_and_blob st0 "zzz" true true).2 (by decide)
  exact ⟨h1.1, h1.2.2.2.2.1, h1.2.2.2.2.2.2, h2.1⟩

/-- C7: downloading an id whose record and blob both exist responds with
Content-Type equal to the stored mime type, a Content-Disposition
attachment carrying the URL-encoded original filename, Content-Length
equal to the recorded size, and the blob's bytes as the body, leaving the
state unchanged. -/
theorem download_sets_headers_and_streams (st : ServerState) (uid : String)
    (persistOk : Bool) (info : FileInfo) (bytes : List Nat)
    (hrec : alGet? st.fileMap uid = some info)
    (hblob : alGet? st.disk info.storedFilename = some bytes) :
    getDownload st uid persistOk =
      (.fileStream
        { contentType := info.mimeType
          contentDisposition :=
            "attachment; filename=\"" ++ encodeURIComponent info.originalFilename ++ "\""
          contentLength := info.size }
        bytes, st) := by
  simp [getDownload, hrec, hblob]

/-- Witness for C7 at a concrete state whose record and blob exist. -/
theorem download_sets_headers_and_streams_witness :
    getDownload stA "aaa-1" true =
      (.fileStream
        { contentType := "application/pdf"
          contentDisposition := "attachment; filename=\"report.pdf\""
          contentLength := 3 }
        [1, 2, 3], stA) := by
  rw [download_sets_headers_and_streams stA "aaa-1" true (mkInfo itemA) [1, 2, 3]
    (by decide) (by decide)]
  decide

/-- C5: an upload of N files (N >= 1) whose generated uuids are healthy
(nonempty, dot-free — as `uuidv4` guarantees), pairwise distinct and
fresh for the registry, and whose stored names are fresh for the uploads
directory, responds 200 with exactly the N created records (in order),
grows the registry by N entries with pairwise distinct ids, writes N new
blobs, and persists the new snapshot when the write succeeds. -/
theorem upload_creates_n_records (st : ServerState) (items : List UploadItem)
    (hne : items ≠ [])
    (hok : ∀ it ∈ items, uuidOk it)
    (hnodup : (items.map fun it => it.uuid).Nodup)
    (hfreshMap : ∀ it ∈ items, alGet? st.fileMap it.uuid = none)
    (hfreshDisk : ∀ it ∈ items, alGet? st.disk (storedNameOf it) = none) :
    (postUpload st items true).1 =
      .uploadOk "Files uploaded successfully" (items.map mkInfo) ∧
    statusOf (postUpload st items true).1 = 200 ∧
    (postUpload st items true).2.fileMap.length = st.fileMap.length + items.length ∧
    (postUpload st items true).2.disk.length = st.disk.length + items.length ∧
    ((items.map mkInfo).map (fun i => i.uid)).Nodup ∧
    (items.map mkInfo).length = items.length ∧
    (postUpload st items true).2.snapshot = .valid (postUpload st items true).2.fileMap := by
  have hm := multerStoreAll_files st.disk items
  have hul := uploadLoop_spec st.fileMap items hok
  have hemp : (items.map fun it => (mkMulterFile it, it.time)).isEmpty = false := by
    cases items with
    | nil => exact absurd rfl hne
    | cons it rest => rfl
  have hkey : postUpload st items true =
      (.uploadOk "Files uploaded successfully" (items.map mkInfo),
       { fileMap := insertAll st.fileMap items
         disk := (multerStoreAll st.disk items).1
         snapshot := .valid (insertAll st.fileMap items) }) := by
    rw [postUpload, hm, hul]
    simp [hemp, saveFileMap]
  rw [hkey]
  refine ⟨rfl, rfl, insertAll_length st.fileMap items hfreshMap hnodup,
    multerStoreAll_disk_length st.disk items hfreshDisk
      (storedNames_nodup items hok hnodup), ?_, by simp, rfl⟩
  have hids : (items.map mkInfo).map (fun i => i.uid) = items.map fun it => it.uuid := by
    rw [List.map_map]
    rfl
  rw [hids]
  exact hnodup

/-- Witness for C5: uploading two concrete files into the fresh state. -/
theorem upload_creates_n_records_witness :
    (postUpload st0 [itemA, itemB] true).1 =
      .uploadOk "Files uploaded successfully" [mkInfo itemA, mkInfo itemB] ∧
    (postUpload st0 [itemA, itemB] true).2.fileMap.length = 0 + 2 ∧
    (postUpload st0 [itemA, itemB] true).2.disk.length = 0 + 2 := by
  have h := upload_creates_n_records st0 [itemA, itemB]
    (by decide) (by decide) (by decide) (by decide) (by decide)
  exact ⟨h.1, h.2.2.1, h.2.2.2.1⟩

/-- C9: registry key/record coherence — when every binding satisfies
that its record's `uid` equals its key and its stored filename is the key
followed by the original filename's extension, every operation preserves
this; upload both preserves it (its created record for an item with a
healthy uuid carries exactly `uid = uuid` and
`storedFilename = uuid ++ extname originalFilename`). -/
theorem registry_key_record_coherence (st : ServerState)
    (hinv : RegistryInv st.fileMap) :
    (∀ it : UploadItem, (mkInfo it).uid = it.uuid ∧
      (mkInfo it).storedFilename = it.uuid ++ extnameS (mkInfo it).originalFilename) ∧
    (∀ items persistOk, (∀ it ∈ items, uuidOk it) →
      RegistryInv (postUpload st items persistOk).2.fileMap) ∧
    RegistryInv (getFiles st).2.fileMap ∧
    (∀ uid persistOk, RegistryInv (getDownload st uid persistOk).2.fileMap) ∧
    (∀ uid persistOk, RegistryInv (deleteFile st uid persistOk).2.fileMap) := by
  refine ⟨fun it => ⟨rfl, rfl⟩, ?_, hinv, ?_, ?_⟩
  · intro items persistOk hok
    cases items with
    | nil => exact hinv
    | cons it0 rest =>
      have hm := multerStoreAll_files st.disk (it0 :: rest)
      have hul := uploadLoop_spec st.fileMap (it0 :: rest) hok
      have hfm : (postUpload st (it0 :: rest) persistOk).2.fileMap =
          insertAll st.fileMap (it0 :: rest) := by
        rw [postUpload, hm, hul]
        rfl
      rw [hfm]
      intro p hp
      rcases mem_insertAll hp with h1 | ⟨it, _, he⟩
      · exact hinv p h1
      · subst he
        exact ⟨rfl, rfl⟩
  · intro uid persistOk
    cases hrec : alGet? st.fileMap uid with
    | none =>
      simp only [getDownload, hrec]
      exact hinv
    | some info =>
      cases hblob : alGet? st.disk info.storedFilename with
      | none =>
        simp only [getDownload, hrec, hblob]
        exact RegistryInv_alErase hinv
      | some bytes =>
        simp only [getDownload, hrec, hblob]
        exact hinv
  · intro uid persistOk
    cases hrec : alGet? st.fileMap uid with
    | none =>
      simp only [deleteFile, hrec]
      exact hinv
    | some info =>
      simp only [deleteFile, hrec]
      exact RegistryInv_alErase hinv

/-- Witness for C9: the invariant after a concrete upload into the empty
state and after a concrete delete. -/
theorem registry_key_record_coherence_witness :
    RegistryInv (postUpload st0 [itemA] true).2.fileMap ∧
    RegistryInv (deleteFile stA "aaa-1" true).2.fileMap := by
  have h0 := registry_key_record_coherence st0 (by decide)
  have hA := registry_key_record_coherence stA (by decide)
  exact ⟨h0.2.1 [itemA] true (by decide), hA.2.2.2.2 "aaa-1" true⟩
